import Mathlib

/-!
# SolRoute — verification of the aggregated quote engine

A shallow embedding of the pricing kernels, router reduction, RPC pool
round-robin selection, quote cache and pool-freshness cache of the SolRoute
repository, with theorems settling the frozen specification claims.

Conventions of the embedding:
* Go `math.Int` / `big.Int` values are `ℤ`; `uint64` / `uint128` values are
  `ℕ` with explicit `% 2^64` where the wraparound of the machine type matters.
* Go `big.Int.Quo` (truncated division) is `Int.tdiv`; Go `big.Int.Div`
  (Euclidean division, floor for a positive divisor) is `Int` `/` (`Int.ediv`).
* Fallible operations return `Option` or `Except String`; a Go panic
  (division by zero in `math.Int.Quo`) is `Option.none`.
* Mint and account addresses are `String`, as at the Go interfaces.
-/

/-! ## CP_AMM pricing kernel (`pump.PumpAMMPool`, `pkg/pool/...`) -/

/-- The state of a Pump constant-product AMM pool that the `Quote` method
reads: the two mints and the cached vault balances (`BaseAmount`,
`QuoteAmount`).  The RPC refresh path only (re)fills the two balances, so it
is not part of the pure pricing kernel. -/
structure PumpAMMPool where
  baseMint : String
  quoteMint : String
  baseAmount : ℤ
  quoteAmount : ℤ
deriving DecidableEq

/-- Modelled from the spec: the constants `BaseDecimalInt` / `BaseDecimal` of
the `pump` package are not among the provided sources; the spec gives the fee
as `25/10,000`, so the effective-input multiplier is `9975/10000` (the Go code
derives the numerator as `int64((1 - 0.00250) * float64(BaseDecimalInt))`,
which is exact for the power-of-ten denominators in question). -/
def pumpFeeMultiplier : ℤ := 9975

/-- Modelled from the spec: the denominator paired with
`pumpFeeMultiplier`. -/
def pumpBaseDecimal : ℤ := 10000

/-- The pricing part of `PumpAMMPool.Quote`: constant product with fee.
`k = base*quote`; the input side grows by
`inputAmount * feeMultiplier / baseDecimal` (truncated); the other side
becomes `k / newSide` (truncated); the output is the difference.
`none` models the Go panic of `Quo` when the grown side is zero. -/
def PumpAMMPool.Quote (pool : PumpAMMPool) (inputMint : String)
    (inputAmount : ℤ) : Option ℤ :=
  let k := pool.baseAmount * pool.quoteAmount
  if inputMint = pool.baseMint then
    let newBase :=
      pool.baseAmount + (inputAmount * pumpFeeMultiplier).tdiv pumpBaseDecimal
    if newBase = 0 then none
    else some (pool.quoteAmount - k.tdiv newBase)
  else
    let newQuote :=
      pool.quoteAmount + (inputAmount * pumpFeeMultiplier).tdiv pumpBaseDecimal
    if newQuote = 0 then none
    else some (pool.baseAmount - k.tdiv newQuote)

/-! ## CLMM pricing kernel (`whirlpool.WhirlpoolPool.Quote`) -/

/-- The part of the Orca Whirlpool pool state read by `Quote`: the two mints,
`SqrtPrice` and `Liquidity` (on-chain `u128`, hence `ℕ`), and `FeeRate`
(`u16`, hundredths of a basis point). -/
structure WhirlpoolPool where
  tokenMintA : String
  tokenMintB : String
  sqrtPrice : ℕ
  liquidity : ℕ
  feeRate : ℕ
deriving DecidableEq

/-- The kernel `WhirlpoolPool.Quote`: single-range CLMM approximation.  Fee is deducted
first (`amount * feeRate / 1_000_000`, truncated `Quo`); a zero-liquidity pool
errors; direction `tokenA → tokenB` multiplies by `sqrtPrice² / 2^128`
(Euclidean `Div`), the reverse direction divides, erroring when
`sqrtPrice² = 0`.  The direction test `inputMint == TokenMintA` is kept. -/
def WhirlpoolPool.Quote (pool : WhirlpoolPool) (inputMint : String)
    (amount : ℤ) : Except String ℤ :=
  if amount = 0 then .ok 0
  else
    let zeroForOne := inputMint = pool.tokenMintA
    let feeAmount := (amount * (pool.feeRate : ℤ)).tdiv 1000000
    let amountAfterFee := amount - feeAmount
    if pool.liquidity = 0 then .error "pool has zero liquidity"
    else
      let sqrtPriceSquared : ℤ := (pool.sqrtPrice : ℤ) * (pool.sqrtPrice : ℤ)
      if zeroForOne then
        .ok ((amountAfterFee * sqrtPriceSquared) / 2 ^ 128)
      else if sqrtPriceSquared = 0 then .error "sqrt price is zero"
      else .ok ((amountAfterFee * 2 ^ 128) / sqrtPriceSquared)

/-! ## Router reduction (`SimpleRouter.GetBestPoolWithFilter`, collection loop) -/

/-- One element received on the router's result channel: the pool id, the
quoted `outAmount` and whether the quote call succeeded (`ok = true` ↔
`err == nil`). -/
structure QuoteResult where
  id : String
  outAmount : ℤ
  ok : Bool
deriving DecidableEq

/-- The collection loop of `GetBestPoolWithFilter` (lines 88–101): failed
results are skipped, and `best`/`maxOut` are replaced only on a strictly
greater `outAmount` (`result.outAmount.GT(maxOut)`), starting from
`best = nil`, `maxOut = 0`.  The list argument is the channel arrival
order. -/
def collectBest : List QuoteResult → Option (String × ℤ) → ℤ →
    Option (String × ℤ)
  | [], best, _ => best
  | r :: rest, best, maxOut =>
    if r.ok = true ∧ maxOut < r.outAmount then
      collectBest rest (some (r.id, r.outAmount)) r.outAmount
    else
      collectBest rest best maxOut

/-- The reduction part of `GetBestPoolWithFilter`: fold the collected results;
`none` models the `"no route found"` error returned when `best == nil`. -/
def GetBestPoolWithFilter (results : List QuoteResult) :
    Option (String × ℤ) :=
  collectBest results none 0

/-! ## RPC pool round-robin (`sol.RPCPool.GetClient`) -/

/-- The selector `RPCPool.GetClient` for a pool of `n` clients with current counter value
`ctr` (a `uint64`, so the increment wraps at `2^64`): with one client no
counter update happens; otherwise the incremented counter modulo `n` selects
the client.  Returns the selected index and the new counter. -/
def RPCPool.GetClient (n ctr : ℕ) : ℕ × ℕ :=
  if n ≤ 1 then (0, ctr)
  else
    let c := (ctr + 1) % 2 ^ 64
    (c % n, c)

/-- The number of times client `j` is returned over a window of `m`
consecutive `GetClient` calls starting from counter value `ctr`. -/
def clientHits (n ctr j : ℕ) : ℕ → ℕ
  | 0 => 0
  | m + 1 =>
    let r := RPCPool.GetClient n ctr
    (if r.1 = j then 1 else 0) + clientHits n r.2 j m

/-! ## Quote cache (`quote-service` `QuoteCache.GetOrCalculateQuote`) -/

/-- The key builder `QuoteCache.getCacheKey`: `fmt.Sprintf("%s-%s-%s", in, out, amount)`. -/
def getCacheKey (inputMint outputMint amount : String) : String :=
  inputMint ++ "-" ++ outputMint ++ "-" ++ amount

/-- The per-request filter arguments of `GetOrCalculateQuote`. -/
structure QuoteFilters where
  dexes : List String
  excludeDexes : List String
  minLiquidityUSD : ℚ
deriving DecidableEq

/-- The condition under which `GetOrCalculateQuote` consults the cache
(`len(dexes) == 0 && len(excludeDexes) == 0 && minLiquidityUSD == 0`). -/
def QuoteFilters.isEmpty (f : QuoteFilters) : Prop :=
  f.dexes = [] ∧ f.excludeDexes = [] ∧ f.minLiquidityUSD = 0

instance (f : QuoteFilters) : Decidable f.isEmpty := by
  unfold QuoteFilters.isEmpty; infer_instance

/-- The cache behaviour of `GetOrCalculateQuote` over an abstract quote
computation `route` (discovery + router + quote construction, which for a
fixed pool state is a function of the filters): the cache is consulted only
when no filter is set, and the computed result is always stored under
`getCacheKey inputMint outputMint amount` — filters are not part of the key.
Returns the answer and the updated cache. -/
def GetOrCalculateQuote (route : QuoteFilters → α)
    (filters : QuoteFilters) (inputMint outputMint amount : String)
    (cache : String → Option α) : α × (String → Option α) :=
  let key := getCacheKey inputMint outputMint amount
  match if filters.isEmpty then cache key else none with
  | some q => (q, cache)
  | none =>
    let quote := route filters
    (quote, fun k => if k = key then some quote else cache k)

/-- The slippage threshold computed in `GetOrCalculateQuote`
(`amountOut.Mul(10000 - slippageBps).Quo(10000)`, `math.Int` arithmetic). -/
def minAmountOut (amountOut slippageBps : ℤ) : ℤ :=
  (amountOut * (10000 - slippageBps)).tdiv 10000

/-! ## Pool freshness cache (`subscription.PoolCache.UpdatePoolAccount`) -/

/-- A `PoolCacheEntry`: the decoded pool (abstract type `π`), the recorded
`LastSlot`, and the raw per-account data map.  The wall-clock `LastUpdate`
field is not modelled. -/
structure PoolCacheEntry (π : Type) where
  pool : π
  lastSlot : ℕ
  accountData : String → Option (List ℕ)

/-- The update `PoolCache.UpdatePoolAccount` on one entry, with the pool's
`UpdateFromAccountData` abstracted as `upd`: the raw data is stored, the
entry's `LastSlot` is set to the update's slot, and the pool state is
updated — unconditionally, with no comparison against the previously
recorded slot. -/
def UpdatePoolAccount (upd : π → String → List ℕ → π)
    (e : PoolCacheEntry π) (accountID : String) (data : List ℕ)
    (slot : ℕ) : PoolCacheEntry π :=
  { pool := upd e.pool accountID data
    lastSlot := slot
    accountData := fun k => if k = accountID then some data else e.accountData k }

/-- Delivering a sequence of push updates `(accountID, data, slot)` to one
cache entry, in order. -/
def applyUpdates (upd : π → String → List ℕ → π) (e : PoolCacheEntry π)
    (updates : List (String × List ℕ × ℕ)) : PoolCacheEntry π :=
  updates.foldl (fun acc u => UpdatePoolAccount upd acc u.1 u.2.1 u.2.2) e

/-! ## Miss coalescing (`GetOrCalculateQuote` under concurrency)

The Go method reads the cache under `RLock`, computes the Router quote with
no lock held, and stores under `Lock`.  Two concurrent callers on the same
key are modelled as two processes, each executing an atomic cache check
followed (on a miss) by an atomic compute-and-store step; a schedule is the
list of process turns. -/

/-- Where a caller is in `GetOrCalculateQuote`: before the cache check,
between the (missed) check and its own Router computation, or finished with
result `r`. -/
inductive ProcPhase where
  | start : ProcPhase
  | computing : ProcPhase
  | done : ℕ → ProcPhase
deriving DecidableEq

/-- Shared cache entry for the one key, how many Router computations ran,
and the phase of each of the two callers. -/
structure CoalesceState where
  cache : Option ℕ
  routerCalls : ℕ
  proc1 : ProcPhase
  proc2 : ProcPhase
deriving DecidableEq

/-- One atomic step of a caller: a `start` process checks the cache (hit →
done with the cached value, miss → proceeds to compute); a `computing`
process performs the Router computation (incrementing the counter) and
stores; a finished process does nothing. -/
def procStep (route : ℕ) (cache : Option ℕ) (calls : ℕ) (p : ProcPhase) :
    Option ℕ × ℕ × ProcPhase :=
  match p with
  | .start =>
    match cache with
    | some r => (some r, calls, .done r)
    | none => (none, calls, .computing)
  | .computing => (some route, calls + 1, .done route)
  | .done r => (cache, calls, .done r)

/-- Let the chosen process (`true` = first) take its next atomic step. -/
def sysStep (route : ℕ) (s : CoalesceState) (who : Bool) : CoalesceState :=
  if who then
    let r := procStep route s.cache s.routerCalls s.proc1
    { s with cache := r.1, routerCalls := r.2.1, proc1 := r.2.2 }
  else
    let r := procStep route s.cache s.routerCalls s.proc2
    { s with cache := r.1, routerCalls := r.2.1, proc2 := r.2.2 }

/-- Run a schedule of process turns. -/
def runSchedule (route : ℕ) (s : CoalesceState) (trace : List Bool) :
    CoalesceState :=
  trace.foldl (sysStep route) s

/-- Both callers arrive with the key absent from the cache. -/
def coalesceInit : CoalesceState :=
  { cache := none, routerCalls := 0, proc1 := .start, proc2 := .start }

/-! ## Auxiliary definitions used by the theorems -/

deriving instance DecidableEq for Except

/-- Reference residue counter: how many of the `m` consecutive integers
`c, c+1, …, c+m-1` are congruent to `j` modulo `n`.  Used to relate
`clientHits` to `Nat.count`. -/
def resCount (n c j : ℕ) : ℕ → ℕ
  | 0 => 0
  | m + 1 => (if c % n = j then 1 else 0) + resCount n (c + 1) j m

/-- The filter record of a request with no filters set. -/
def emptyFilters : QuoteFilters := ⟨[], [], 0⟩

/-- A concrete `UpdateFromAccountData`: the decoded pool state is just the
last raw data delivered (an overwrite-style decoder). -/
def overwritePool : List ℕ → String → List ℕ → List ℕ := fun _ _ d => d

/-- A fresh freshness-cache entry for `overwritePool` pools. -/
def emptyEntry : PoolCacheEntry (List ℕ) := ⟨[], 0, fun _ => none⟩

/-! ## Claim C1 — CP_AMM exact quote -/

/-- Claim C1 (counterexample): quoting 10,000 units of tokenA against the
CP_AMM pool with reserves 1,000,000 / 2,000,000 and fee 25/10,000 returns
19,753, not the 19,752 asserted by the claim. -/
theorem C1_counterexample :
    PumpAMMPool.Quote ⟨"A", "B", 1000000, 2000000⟩ "A" 10000 = some 19753 ∧
    PumpAMMPool.Quote ⟨"A", "B", 1000000, 2000000⟩ "A" 10000 ≠ some 19752 :=
  ⟨by decide, by decide⟩

/-- Claim C1 (amended): with `reserveIn = 1,000,000`, `reserveOut =
2,000,000`, fee `25/10,000` and input 10,000 of tokenA, the kernel returns
exactly 19,753, by the truncation order actually implemented:
`effIn = floor(amountIn·9975/10000) = 9,975` and
`outAmount = reserveOut − floor(reserveIn·reserveOut/(reserveIn+effIn))`,
which is one more than the claim's
`floor(reserveOut·effIn/(reserveIn+effIn)) = 19,752`. -/
theorem C1_cpamm_exact_quote :
    PumpAMMPool.Quote ⟨"A", "B", 1000000, 2000000⟩ "A" 10000 =
      some (2000000 - ((1000000 : ℤ) * 2000000).tdiv (1000000 + 9975)) ∧
    (10000 * pumpFeeMultiplier).tdiv pumpBaseDecimal = 9975 ∧
    (2000000 : ℤ) - ((1000000 : ℤ) * 2000000).tdiv (1000000 + 9975) = 19753 ∧
    (2000000 * 9975 : ℤ).tdiv (1000000 + 9975) = 19752 :=
  ⟨by decide, by decide, by decide, by decide⟩

/-! ## Claim C3 — freshness-layer slot ordering -/

/-- Claim C3 (counterexample): delivering slot 2 and then slot 1 for the same
account does not leave the entry in the slot-2 state — the slot-1 update is
applied, not ignored: `lastSlot` ends at 1 and the pool state differs from
the post-slot-2 state. -/
theorem C3_counterexample :
    (UpdatePoolAccount overwritePool
        (UpdatePoolAccount overwritePool emptyEntry "acc" [2] 2)
        "acc" [1] 1).lastSlot = 1 ∧
    (UpdatePoolAccount overwritePool emptyEntry "acc" [2] 2).lastSlot = 2 ∧
    (UpdatePoolAccount overwritePool
        (UpdatePoolAccount overwritePool emptyEntry "acc" [2] 2)
        "acc" [1] 1).pool ≠
      (UpdatePoolAccount overwritePool emptyEntry "acc" [2] 2).pool :=
  ⟨rfl, rfl, by decide⟩

/-- Claim C3 (amended): `UpdatePoolAccount` performs no slot comparison;
every update is applied and `lastSlot` is overwritten unconditionally.
After slots `s2` then `s1` with `s1 < s2` the entry records `lastSlot = s1`,
the account's raw data is the slot-1 payload, and the pool state is the
slot-2 update followed by the slot-1 update (last-delivered-wins); in
general, after any update sequence `lastSlot` is the final update's slot. -/
theorem C3_update_ignores_slot {π : Type} (upd : π → String → List ℕ → π)
    (e : PoolCacheEntry π) (acc : String) (d1 d2 : List ℕ) (s1 s2 : ℕ)
    (h : s1 < s2) :
    ((UpdatePoolAccount upd (UpdatePoolAccount upd e acc d2 s2)
        acc d1 s1).lastSlot = s1 ∧
     (UpdatePoolAccount upd (UpdatePoolAccount upd e acc d2 s2)
        acc d1 s1).accountData acc = some d1 ∧
     (UpdatePoolAccount upd (UpdatePoolAccount upd e acc d2 s2)
        acc d1 s1).pool = upd (upd e.pool acc d2) acc d1) ∧
    (∀ (us : List (String × List ℕ × ℕ)) (a : String) (d : List ℕ) (s : ℕ),
      (applyUpdates upd e (us ++ [(a, d, s)])).lastSlot = s) := by
  refine ⟨⟨rfl, by simp [UpdatePoolAccount], rfl⟩, fun us a d s => ?_⟩
  simp [applyUpdates, List.foldl_append, UpdatePoolAccount]

/-- Witness for C3's amended theorem at a concrete entry and slots 9 then 3. -/
theorem C3_witness :
    (UpdatePoolAccount overwritePool
        (UpdatePoolAccount overwritePool emptyEntry "v" [8] 9)
        "v" [7] 3).lastSlot = 3 ∧
    (UpdatePoolAccount overwritePool
        (UpdatePoolAccount overwritePool emptyEntry "v" [8] 9)
        "v" [7] 3).accountData "v" = some [7] ∧
    (UpdatePoolAccount overwritePool
        (UpdatePoolAccount overwritePool emptyEntry "v" [8] 9)
        "v" [7] 3).pool = overwritePool (overwritePool emptyEntry.pool "v" [8]) "v" [7] :=
  (C3_update_ignores_slot overwritePool emptyEntry "v" [7] [8] 3 9 (by decide)).1

/-! ## Claim C4 — CLMM error handling on zero liquidity / zero price -/

set_option maxRecDepth 10000 in
/-- Claim C4 (counterexample): for a CLMM pool with positive liquidity and
`sqrtPrice = 0` (hence price 0), the tokenA→tokenB direction returns output
0 with no error, where the claim requires an error. -/
theorem C4_counterexample :
    WhirlpoolPool.Quote ⟨"A", "B", 0, 1, 0⟩ "A" 5 = Except.ok 0 ∧
    (⟨"A", "B", 0, 1, 0⟩ : WhirlpoolPool).sqrtPrice = 0 ∧
    (⟨"A", "B", 0, 1, 0⟩ : WhirlpoolPool).liquidity ≠ 0 :=
  ⟨by decide, rfl, by decide⟩

/-- Claim C4 (amended): for every positive input, zero liquidity produces an
error in both directions; zero price (`sqrtPrice = 0` with nonzero
liquidity) produces an error only in the tokenB→tokenA direction, while the
tokenA→tokenB direction returns `ok 0` instead of an error. -/
theorem C4_clmm_error_cases (p : WhirlpoolPool) (mint : String) (amount : ℤ)
    (hpos : 0 < amount) :
    (p.liquidity = 0 →
      p.Quote mint amount = Except.error "pool has zero liquidity") ∧
    (p.liquidity ≠ 0 → p.sqrtPrice = 0 →
      (mint = p.tokenMintA → p.Quote mint amount = Except.ok 0) ∧
      (mint ≠ p.tokenMintA →
        p.Quote mint amount = Except.error "sqrt price is zero")) := by
  unfold WhirlpoolPool.Quote
  have h0 : ¬ amount = 0 := by omega
  refine ⟨fun hl => ?_, fun hl hs => ⟨fun hm => ?_, fun hm => ?_⟩⟩
  · simp [h0, hl]
  · simp [h0, hl, hm, hs]
  · simp [h0, hl, hm, hs]

/-- Witness for C4's amended theorem: a zero-liquidity pool errors, and a
zero-price pool errors in the B→A direction. -/
theorem C4_witness :
    WhirlpoolPool.Quote ⟨"A", "B", 5, 0, 0⟩ "A" 1 =
      Except.error "pool has zero liquidity" ∧
    WhirlpoolPool.Quote ⟨"A", "B", 0, 1, 0⟩ "B" 1 =
      Except.error "sqrt price is zero" :=
  ⟨(C4_clmm_error_cases ⟨"A", "B", 5, 0, 0⟩ "A" 1 (by decide)).1 rfl,
   ((C4_clmm_error_cases ⟨"A", "B", 0, 1, 0⟩ "B" 1 (by decide)).2
      (by decide) rfl).2 (by decide)⟩

/-! ## Claim C8 — miss coalescing in the quote cache -/

/-- Claim C8 (counterexample): the interleaving in which both callers pass
their cache check before either stores makes the Router computation run
twice for two concurrent misses on the identical key — not exactly once. -/
theorem C8_counterexample :
    runSchedule 7 coalesceInit [true, false, true, false] =
      ⟨some 7, 2, .done 7, .done 7⟩ ∧ (2 : ℕ) ≠ 1 :=
  ⟨by decide, by decide⟩

/-- Claim C8 (amended): `GetOrCalculateQuote` does not coalesce concurrent
misses — there is no in-flight table, so each caller whose cache check
misses runs its own Router computation.  Under the check/check/compute/
compute interleaving the Router runs twice (both callers still finish with
the routed result); only when one call completes before the other checks
does the Router run once. -/
theorem C8_no_coalescing (route : ℕ) :
    runSchedule route coalesceInit [true, false, true, false] =
      ⟨some route, 2, .done route, .done route⟩ ∧
    runSchedule route coalesceInit [true, true, false, false] =
      ⟨some route, 1, .done route, .done route⟩ :=
  ⟨rfl, rfl⟩

/-- Witness for C8's amended theorem at `route = 5`. -/
theorem C8_witness :
    runSchedule 5 coalesceInit [true, false, true, false] =
      ⟨some 5, 2, .done 5, .done 5⟩ ∧
    runSchedule 5 coalesceInit [true, true, false, false] =
      ⟨some 5, 1, .done 5, .done 5⟩ :=
  C8_no_coalescing 5

/-! ## Router reduction lemmas (claims C2, C5) -/

/-- Invariant of the collection loop with a non-empty accumulator
`best = some (i0, m0)`, `maxOut = m0`: either nothing beats `m0` and the
accumulator survives, or the answer is the first later result that attains
the final maximum. -/
theorem collectBest_acc_spec (rs : List QuoteResult) :
    ∀ (i0 : String) (m0 : ℤ) (id : String) (out : ℤ),
      collectBest rs (some (i0, m0)) m0 = some (id, out) →
      (id = i0 ∧ out = m0 ∧ ∀ r ∈ rs, r.ok = true → r.outAmount ≤ m0) ∨
      (m0 < out ∧ ∃ l1 l2, rs = l1 ++ ⟨id, out, true⟩ :: l2 ∧
        (∀ r ∈ l1, r.ok = true → r.outAmount < out) ∧
        (∀ r ∈ l2, r.ok = true → r.outAmount ≤ out)) := by
  induction rs with
  | nil =>
    intro i0 m0 id out h
    simp only [collectBest, Option.some.injEq, Prod.mk.injEq] at h
    exact Or.inl ⟨h.1.symm, h.2.symm, by simp⟩
  | cons r rest ih =>
    intro i0 m0 id out h
    simp only [collectBest] at h
    by_cases hc : r.ok = true ∧ m0 < r.outAmount
    · rw [if_pos hc] at h
      rcases ih r.id r.outAmount id out h with
        ⟨hid, hout, hall⟩ | ⟨hlt, l1, l2, heq, h1, h2⟩
      · right
        refine ⟨by omega, [], rest, ?_, by simp, ?_⟩
        · have hr : r = ⟨id, out, true⟩ := by
            rcases r with ⟨a, b, c⟩
            simp only [QuoteResult.mk.injEq]
            exact ⟨hid.symm, hout.symm, hc.1⟩
          rw [hr]
          rfl
        · intro x hx hok
          rw [hout]
          exact hall x hx hok
      · right
        refine ⟨by omega, r :: l1, l2, by rw [heq]; rfl, ?_, h2⟩
        intro x hx hok
        rcases List.mem_cons.mp hx with hx1 | hx2
        · subst hx1; omega
        · exact h1 x hx2 hok
    · rw [if_neg hc] at h
      rcases ih i0 m0 id out h with
        ⟨hid, hout, hall⟩ | ⟨hlt, l1, l2, heq, h1, h2⟩
      · left
        refine ⟨hid, hout, ?_⟩
        intro x hx hok
        rcases List.mem_cons.mp hx with hx1 | hx2
        · subst hx1
          have hngt : ¬ m0 < x.outAmount := fun hgt => hc ⟨hok, hgt⟩
          omega
        · exact hall x hx2 hok
      · right
        refine ⟨hlt, r :: l1, l2, by rw [heq]; rfl, ?_, h2⟩
        intro x hx hok
        rcases List.mem_cons.mp hx with hx1 | hx2
        · subst hx1
          have hngt : ¬ m0 < x.outAmount := fun hgt => hc ⟨hok, hgt⟩
          omega
        · exact h1 x hx2 hok

/-- Once the accumulator is non-empty the loop cannot return `nil`. -/
theorem collectBest_acc_isSome (rs : List QuoteResult) :
    ∀ (p : String × ℤ) (m : ℤ), ∃ q, collectBest rs (some p) m = some q := by
  induction rs with
  | nil => intro p m; exact ⟨p, rfl⟩
  | cons r rest ih =>
    intro p m
    simp only [collectBest]
    by_cases hc : r.ok = true ∧ m < r.outAmount
    · rw [if_pos hc]; exact ih _ _
    · rw [if_neg hc]; exact ih _ _

/-- The loop returns `nil` (the `"no route found"` error) exactly when no
successful result has a positive `outAmount`. -/
theorem collectBest_none_eq_none_iff (rs : List QuoteResult) :
    collectBest rs none 0 = none ↔
      ∀ r ∈ rs, r.ok = true → r.outAmount ≤ 0 := by
  induction rs with
  | nil => simp [collectBest]
  | cons r rest ih =>
    simp only [collectBest]
    by_cases hc : r.ok = true ∧ (0 : ℤ) < r.outAmount
    · rw [if_pos hc]
      constructor
      · intro h
        obtain ⟨q, hq⟩ := collectBest_acc_isSome rest (r.id, r.outAmount) r.outAmount
        rw [hq] at h
        exact absurd h (by simp)
      · intro hall
        have := hall r (by simp) hc.1
        omega
    · rw [if_neg hc, ih]
      constructor
      · intro hall x hx hok
        rcases List.mem_cons.mp hx with hx1 | hx2
        · subst hx1
          have hngt : ¬ (0 : ℤ) < x.outAmount := fun hgt => hc ⟨hok, hgt⟩
          omega
        · exact hall x hx2 hok
      · intro hall x hx hok
        exact hall x (List.mem_cons_of_mem _ hx) hok

/-- From the empty accumulator the loop returns the first result that
attains the maximum positive successful `outAmount`. -/
theorem collectBest_none_spec (rs : List QuoteResult) :
    ∀ (id : String) (out : ℤ), collectBest rs none 0 = some (id, out) →
      0 < out ∧ ∃ l1 l2, rs = l1 ++ ⟨id, out, true⟩ :: l2 ∧
        (∀ r ∈ l1, r.ok = true → r.outAmount < out) ∧
        (∀ r ∈ l2, r.ok = true → r.outAmount ≤ out) := by
  induction rs with
  | nil => intro id out h; simp [collectBest] at h
  | cons r rest ih =>
    intro id out h
    simp only [collectBest] at h
    by_cases hc : r.ok = true ∧ (0 : ℤ) < r.outAmount
    · rw [if_pos hc] at h
      rcases collectBest_acc_spec rest r.id r.outAmount id out h with
        ⟨hid, hout, hall⟩ | ⟨hlt, l1, l2, heq, h1, h2⟩
      · refine ⟨by omega, [], rest, ?_, by simp, ?_⟩
        · have hr : r = ⟨id, out, true⟩ := by
            rcases r with ⟨a, b, c⟩
            simp only [QuoteResult.mk.injEq]
            exact ⟨hid.symm, hout.symm, hc.1⟩
          rw [hr]
          rfl
        · intro x hx hok
          rw [hout]
          exact hall x hx hok
      · refine ⟨by omega, r :: l1, l2, by rw [heq]; rfl, ?_, h2⟩
        intro x hx hok
        rcases List.mem_cons.mp hx with hx1 | hx2
        · subst hx1; omega
        · exact h1 x hx2 hok
    · rw [if_neg hc] at h
      rcases ih id out h with ⟨hpos, l1, l2, heq, h1, h2⟩
      refine ⟨hpos, r :: l1, l2, by rw [heq]; rfl, ?_, h2⟩
      intro x hx hok
      rcases List.mem_cons.mp hx with hx1 | hx2
      · subst hx1
        have hngt : ¬ (0 : ℤ) < x.outAmount := fun hgt => hc ⟨hok, hgt⟩
        omega
      · exact h1 x hx2 hok

/-! ## Claim C2 — deterministic selection with pool-id tie-break -/

/-- Claim C2 (counterexample): two tied results delivered in either order
make `GetBestPoolWithFilter` return whichever arrived first — with arrival
order `"b"` then `"a"` it returns `"b"` even though `"a"` is the
lexicographically smaller pool id, and reversing the arrival order changes
the answer. -/
theorem C2_counterexample :
    GetBestPoolWithFilter [⟨"b", 100, true⟩, ⟨"a", 100, true⟩] =
      some ("b", 100) ∧
    GetBestPoolWithFilter [⟨"a", 100, true⟩, ⟨"b", 100, true⟩] =
      some ("a", 100) ∧
    "a" < "b" := by
  refine ⟨by decide, by decide, ?_⟩
  rw [String.lt_iff_toList_lt]
  decide

/-- Claim C2 (amended): `GetBestPoolWithFilter` returns a successful result
attaining the maximum `outAmount`, which must be positive; a tie on the
maximum is broken in favour of the result collected first (every earlier
successful result is strictly smaller), so the selection depends on the
collection order, not on the pool ids. -/
theorem C2_router_first_max (rs : List QuoteResult) (id : String) (out : ℤ)
    (h : GetBestPoolWithFilter rs = some (id, out)) :
    0 < out ∧ ∃ l1 l2, rs = l1 ++ ⟨id, out, true⟩ :: l2 ∧
      (∀ r ∈ l1, r.ok = true → r.outAmount < out) ∧
      (∀ r ∈ l2, r.ok = true → r.outAmount ≤ out) :=
  collectBest_none_spec rs id out h

/-- Witness for C2's amended theorem on a two-result tie. -/
theorem C2_witness :
    0 < (100 : ℤ) ∧ ∃ l1 l2,
      [QuoteResult.mk "b" 100 true, QuoteResult.mk "a" 100 true] =
        l1 ++ ⟨"b", 100, true⟩ :: l2 ∧
      (∀ r ∈ l1, r.ok = true → r.outAmount < 100) ∧
      (∀ r ∈ l2, r.ok = true → r.outAmount ≤ 100) :=
  C2_router_first_max [⟨"b", 100, true⟩, ⟨"a", 100, true⟩] "b" 100 (by decide)

/-! ## Claim C5 — no-route error versus per-pool failures -/

/-- Claim C5 (counterexample): a pool whose quote succeeds with
`outAmount = 0` still yields the no-route error, so "error iff no pool
produces a successful quote" fails. -/
theorem C5_counterexample :
    GetBestPoolWithFilter [⟨"a", 0, true⟩] = none ∧
    (QuoteResult.mk "a" 0 true).ok = true :=
  ⟨by decide, rfl⟩

/-- Claim C5 (amended): `GetBestPoolWithFilter` errors exactly when no pool
produces a successful quote with positive `outAmount`; a failed quote only
excludes that pool — whenever some pool succeeds with a positive amount the
call returns a result. -/
theorem C5_no_route_iff (rs : List QuoteResult) :
    (GetBestPoolWithFilter rs = none ↔
      ∀ r ∈ rs, r.ok = true → r.outAmount ≤ 0) ∧
    (∀ r ∈ rs, r.ok = true → 0 < r.outAmount →
      ∃ p, GetBestPoolWithFilter rs = some p) := by
  refine ⟨collectBest_none_eq_none_iff rs, fun r hr hok hpos => ?_⟩
  cases hbest : GetBestPoolWithFilter rs with
  | some p => exact ⟨p, rfl⟩
  | none =>
    have := (collectBest_none_eq_none_iff rs).mp hbest r hr hok
    omega

/-- Witness for C5's amended theorem: a zero-output success is a no-route,
and one failing pool next to one positive success still yields a result. -/
theorem C5_witness :
    GetBestPoolWithFilter [⟨"a", 0, true⟩] = none ∧
    (∃ p, GetBestPoolWithFilter [⟨"a", 0, false⟩, ⟨"b", 5, true⟩] = some p) :=
  ⟨(C5_no_route_iff [⟨"a", 0, true⟩]).1.mpr (by decide),
   (C5_no_route_iff [⟨"a", 0, false⟩, ⟨"b", 5, true⟩]).2
     ⟨"b", 5, true⟩ (by decide) rfl (by decide)⟩

/-! ## Claim C6 — slippage threshold -/

/-- Claim C6: for `outAmount ≥ 0` and `bps ∈ [0, 10000]` the reported
threshold `amountOut.Mul(10000 − bps).Quo(10000)` equals the exact floor
`⌊outAmount·(10000 − bps)/10000⌋`. -/
theorem C6_slippage_threshold (amountOut slippageBps : ℤ)
    (h1 : 0 ≤ amountOut) (h2 : 0 ≤ slippageBps) (h3 : slippageBps ≤ 10000) :
    minAmountOut amountOut slippageBps =
      Int.fdiv (amountOut * (10000 - slippageBps)) 10000 := by
  have hnum : 0 ≤ amountOut * (10000 - slippageBps) :=
    mul_nonneg h1 (by omega)
  unfold minAmountOut
  rw [Int.tdiv_eq_ediv hnum (by norm_num),
    Int.fdiv_eq_ediv _ (by norm_num : (0 : ℤ) ≤ 10000)]

/-- Witness for C6 at `outAmount = 19753`, `bps = 50`. -/
theorem C6_witness :
    minAmountOut 19753 50 = Int.fdiv (19753 * (10000 - 50)) 10000 :=
  C6_slippage_threshold 19753 50 (by decide) (by decide) (by decide)

/-! ## Claim C7 — no free output -/

set_option maxRecDepth 10000 in
/-- Claim C7 (counterexample): the CLMM quote is not bounded by the pool's
liquidity: a pool with `liquidity = 1`, `sqrtPrice = 2^65` (price 4) and no
fee quotes 16 output for 4 input. -/
theorem C7_counterexample :
    WhirlpoolPool.Quote ⟨"A", "B", 2 ^ 65, 1, 0⟩ "A" 4 = Except.ok 16 ∧
    (⟨"A", "B", 2 ^ 65, 1, 0⟩ : WhirlpoolPool).liquidity < 16 :=
  ⟨by decide, by decide⟩

set_option maxRecDepth 10000 in
/-- Claim C7 (amended): for CP_AMM pools with non-negative reserves the
quoted output never exceeds the opposite-side reserve (whenever the quote
returns a value); the CLMM kernel, by contrast, imposes no liquidity bound
on its output — it can quote more than the pool's entire liquidity. -/
theorem C7_no_free_output :
    (∀ (pool : PumpAMMPool) (mint : String) (amt : ℤ),
      0 ≤ pool.baseAmount → 0 ≤ pool.quoteAmount → 0 ≤ amt →
      (mint = pool.baseMint →
        (pool.Quote mint amt).getD 0 ≤ pool.quoteAmount) ∧
      (mint ≠ pool.baseMint →
        (pool.Quote mint amt).getD 0 ≤ pool.baseAmount)) ∧
    (WhirlpoolPool.Quote ⟨"A", "B", 2 ^ 65, 1, 0⟩ "A" 4 = Except.ok 16 ∧
      (1 : ℕ) < 16) := by
  refine ⟨fun pool mint amt hb hq ha => ?_, by decide, by decide⟩
  have heff : 0 ≤ (amt * pumpFeeMultiplier).tdiv pumpBaseDecimal :=
    Int.tdiv_nonneg (mul_nonneg ha (by norm_num [pumpFeeMultiplier]))
      (by norm_num [pumpBaseDecimal])
  have hk : 0 ≤ pool.baseAmount * pool.quoteAmount := mul_nonneg hb hq
  refine ⟨fun hm => ?_, fun hm => ?_⟩
  · simp only [PumpAMMPool.Quote, if_pos hm]
    by_cases h0 :
      pool.baseAmount + (amt * pumpFeeMultiplier).tdiv pumpBaseDecimal = 0
    · simp [h0, hq]
    · have hpos :
          0 < pool.baseAmount + (amt * pumpFeeMultiplier).tdiv pumpBaseDecimal := by
        omega
      have hdiv : 0 ≤ (pool.baseAmount * pool.quoteAmount).tdiv
          (pool.baseAmount + (amt * pumpFeeMultiplier).tdiv pumpBaseDecimal) :=
        Int.tdiv_nonneg hk hpos.le
      simp only [h0, if_false]
      simp only [Option.getD_some]
      omega
  · simp only [PumpAMMPool.Quote, if_neg hm]
    by_cases h0 :
      pool.quoteAmount + (amt * pumpFeeMultiplier).tdiv pumpBaseDecimal = 0
    · simp [h0, hb]
    · have hpos :
          0 < pool.quoteAmount + (amt * pumpFeeMultiplier).tdiv pumpBaseDecimal := by
        omega
      have hdiv : 0 ≤ (pool.baseAmount * pool.quoteAmount).tdiv
          (pool.quoteAmount + (amt * pumpFeeMultiplier).tdiv pumpBaseDecimal) :=
        Int.tdiv_nonneg hk hpos.le
      simp only [h0, if_false]
      simp only [Option.getD_some]
      omega

/-- Witness for C7's amended theorem: the C1 pool cannot pay out more than
its 2,000,000 output-side reserve. -/
theorem C7_witness :
    (PumpAMMPool.Quote ⟨"A", "B", 1000000, 2000000⟩ "A" 10000).getD 0 ≤
      2000000 :=
  (C7_no_free_output.1 ⟨"A", "B", 1000000, 2000000⟩ "A" 10000
    (by decide) (by decide) (by decide)).1 rfl

/-! ## Round-robin counting lemmas (claim C9) -/

/-- With a single client every call returns client 0. -/
theorem clientHits_one (ctr m : ℕ) : clientHits 1 ctr 0 m = m := by
  induction m generalizing ctr with
  | zero => rfl
  | succ m ih =>
    have h1 : RPCPool.GetClient 1 ctr = (0, ctr) := rfl
    simp only [clientHits, h1, ih, eq_self_iff_true, ite_true]
    omega

/-- While the `uint64` counter does not wrap, the selected indices over a
window are the residues of the consecutive counter values. -/
theorem clientHits_eq_resCount (n j : ℕ) (hn : 2 ≤ n) (m : ℕ) :
    ∀ ctr : ℕ, ctr + m < 2 ^ 64 →
      clientHits n ctr j m = resCount n (ctr + 1) j m := by
  induction m with
  | zero => intro ctr _; rfl
  | succ m ih =>
    intro ctr hw
    have hlt : ctr + 1 < 2 ^ 64 := by omega
    have hne : ¬ n ≤ 1 := by omega
    simp only [clientHits, RPCPool.GetClient, if_neg hne]
    rw [Nat.mod_eq_of_lt hlt]
    rw [ih (ctr + 1) (by omega)]
    rfl

/-- Expressing `resCount` as a difference of prefix counts. -/
theorem resCount_add_count (n j m : ℕ) :
    ∀ c : ℕ, resCount n c j m + Nat.count (fun x => x % n = j) c =
      Nat.count (fun x => x % n = j) (c + m) := by
  induction m with
  | zero => intro c; simp [resCount]
  | succ m ih =>
    intro c
    have hstep : Nat.count (fun x => x % n = j) (c + 1) =
        Nat.count (fun x => x % n = j) c + (if c % n = j then 1 else 0) :=
      Nat.count_succ _ c
    have hrec := ih (c + 1)
    have harg : c + (m + 1) = c + 1 + m := by omega
    simp only [resCount]
    rw [harg, ← hrec, hstep]
    ring

/-- Closed form for the residue count below `b` (from
`Nat.count_modEq_card`). -/
theorem count_mod_eq (n j : ℕ) (hn : 0 < n) (hj : j < n) (b : ℕ) :
    Nat.count (fun x => x % n = j) b =
      b / n + if j < b % n then 1 else 0 := by
  have h := Nat.count_modEq_card b hn j
  simp only [Nat.ModEq, Nat.mod_eq_of_lt hj] at h
  exact h

/-! ## Claim C9 — round-robin fairness -/

/-- Claim C9: over any window of `k·n` consecutive `GetClient` calls on a
pool of `n ≥ 1` clients, each client index `j < n` is returned exactly `k`
times, provided the `uint64` counter does not wrap inside the window. -/
theorem C9_round_robin_fair (n ctr j k : ℕ) (hn : 1 ≤ n) (hj : j < n)
    (hw : ctr + k * n < 2 ^ 64) :
    clientHits n ctr j (k * n) = k := by
  rcases eq_or_lt_of_le hn with h1 | h2
  · have hn1 : n = 1 := h1.symm
    subst hn1
    have hj0 : j = 0 := by omega
    subst hj0
    rw [clientHits_one]
    omega
  · have h2' : 2 ≤ n := h2
    rw [clientHits_eq_resCount n j h2' (k * n) ctr hw]
    have hB := resCount_add_count n j (k * n) (ctr + 1)
    have hC1 := count_mod_eq n j (by omega) hj (ctr + 1 + k * n)
    have hC2 := count_mod_eq n j (by omega) hj (ctr + 1)
    have hmod : (ctr + 1 + k * n) % n = (ctr + 1) % n :=
      Nat.add_mul_mod_self_right (ctr + 1) k n
    have hdivq : (ctr + 1 + k * n) / n = (ctr + 1) / n + k :=
      Nat.add_mul_div_right (ctr + 1) k (by omega)
    rw [hmod, hdivq] at hC1
    generalize (if j < (ctr + 1) % n then 1 else 0) = t at hC1 hC2
    omega

/-- Witness for C9: three clients, two full rounds, client 1 served twice. -/
theorem C9_witness : clientHits 3 0 1 (2 * 3) = 2 :=
  C9_round_robin_fair 3 0 1 2 (by decide) (by decide) (by decide)

/-! ## Claim C10 — filtered requests write to the unfiltered cache key -/

/-- Claim C10: a request with filters set skips the cache lookup but still
stores its (filtered) result under `getCacheKey inputMint outputMint amount`
— the very key unfiltered requests use — so a later unfiltered request for
the same triple returns the stored filtered result instead of recomputing
the best pool over all protocols. -/
theorem C10_filtered_result_cached_unfiltered {α : Type}
    (route : QuoteFilters → α) (f : QuoteFilters) (hf : ¬ f.isEmpty)
    (inputMint outputMint amount : String) (cache : String → Option α) :
    (GetOrCalculateQuote route f inputMint outputMint amount cache).1 =
      route f ∧
    (GetOrCalculateQuote route f inputMint outputMint amount cache).2
      (getCacheKey inputMint outputMint amount) = some (route f) ∧
    (GetOrCalculateQuote route emptyFilters inputMint outputMint amount
      (GetOrCalculateQuote route f inputMint outputMint amount cache).2).1 =
      route f := by
  have hstore :
      GetOrCalculateQuote route f inputMint outputMint amount cache =
        (route f, fun k =>
          if k = getCacheKey inputMint outputMint amount
          then some (route f) else cache k) := by
    simp [GetOrCalculateQuote, hf]
  refine ⟨by rw [hstore], by rw [hstore]; simp, ?_⟩
  rw [hstore]
  simp [GetOrCalculateQuote, emptyFilters, QuoteFilters.isEmpty]

/-- Witness for C10: a filtered request (restricted to one DEX) poisons the
shared key; the following unfiltered request returns the filtered answer. -/
theorem C10_witness :
    (GetOrCalculateQuote (fun f => f.dexes.length) ⟨["Orca"], [], 0⟩
      "i" "o" "100" (fun _ => none)).1 = 1 ∧
    (GetOrCalculateQuote (fun f => f.dexes.length) ⟨["Orca"], [], 0⟩
      "i" "o" "100" (fun _ => none)).2 (getCacheKey "i" "o" "100") = some 1 ∧
    (GetOrCalculateQuote (fun f => f.dexes.length) emptyFilters "i" "o" "100"
      (GetOrCalculateQuote (fun f => f.dexes.length) ⟨["Orca"], [], 0⟩
        "i" "o" "100" (fun _ => none)).2).1 = 1 :=
  C10_filtered_result_cached_unfiltered (fun f => f.dexes.length)
    ⟨["Orca"], [], 0⟩ (by decide) "i" "o" "100" (fun _ => none)
